import Mathlib

/-!
Shallow embedding of the `clarity` concept/slot core
(`src/include/concept.h`, `src/src/concept.c`, `src/src/main.c`).

The C core manages heap-allocated `Concept` records whose `slots` array
holds (owned relation-name string, non-owned target pointer) pairs.  We
model the process heap explicitly:

* string storage is a list of `Option String` — the address of a string
  is its index, `none` marks a freed (or never-allocated) cell;
* concept storage is a list of `Option Concept` — likewise indexed by
  address, `none` marking a freed record;
* a C pointer argument that may be `NULL` is an `Option Nat`
  (`none` = `NULL`, `some a` = address `a`);
* reading through a dangling pointer is undefined behaviour in C; the
  model makes every such operation return `none` (`Option`-failure);
* `malloc`/`strdup` failure aborts the process in the source
  (`exit(1)` after a diagnostic), so allocation itself never fails in
  the model — fresh cells are appended at the end of the store.

Transcription notes, recorded here because the C file as shipped does
not compile and the slips are corrected to their documented intent:

* `concept.c:110` reads `concet->slot_capacity * 2`; `concet` is an
  undeclared identifier and the evident intent (the comment block above
  `add_slot`: "double the capacity each time we grow") is
  `concept->slot_capacity * 2`, which is what `add_slot` below embeds;
* `concept.c:111` reads `size_of(Slot)`; the intent is `sizeof(Slot)`,
  which the list model makes implicit;
* `concept.c:52` reads `concept>slots[i].name` and `concept.c:54`
  reads `concept>slots[i].target.id`; the intent, documented in the
  comment block above `print_concept` ("Print `slot.target->id`"), is
  `concept->slots[i].name` and `concept->slots[i].target->id`, which is
  what `print_concept` below embeds.
-/

namespace Clarity

/-- Slot record of `include/concept.h`: `char* name` (address of the
slot-owned relation-name string) and `Concept* target` (non-owned pointer,
`none` models `NULL`). -/
structure Slot where
  name : Nat
  target : Option Nat
deriving DecidableEq, Repr

/-- Concept record of `include/concept.h`: `char* id`, `char* types`
(addresses of node-owned strings), the populated prefix of the `slots`
array as a list (so `slot_count` is its length), and `int slot_capacity`.
The unpopulated tail of the C array holds indeterminate bytes and is not
observable, so it is not modelled. -/
structure Concept where
  id : Nat
  types : Nat
  slots : List Slot
  slot_capacity : Nat
deriving DecidableEq, Repr

/-- Field `slot_count`: the C code keeps `slot_count` equal to the
number of populated slots; in the model that is the length of `slots`. -/
def Concept.slot_count (c : Concept) : Nat := c.slots.length

/-- The process heap: string cells and concept cells, addressed by index;
`none` is a freed or unallocated cell. -/
structure Heap where
  strings : List (Option String)
  concepts : List (Option Concept)
deriving DecidableEq, Repr

/-- Read the string at address `a` (`none` when dangling or freed). -/
def Heap.getString (h : Heap) (a : Nat) : Option String :=
  (h.strings[a]?).join

/-- Read the concept record at address `a` (`none` when dangling or freed). -/
def Heap.getConcept (h : Heap) (a : Nat) : Option Concept :=
  (h.concepts[a]?).join

/-- Allocate a fresh string cell holding `s`; returns the new heap and the
fresh address (the old length of the string store). -/
def Heap.allocString (h : Heap) (s : String) : Heap × Nat :=
  ({ h with strings := h.strings ++ [some s] }, h.strings.length)

/-- Overwrite the string cell at address `a` (models the caller mutating a
buffer it owns; out-of-range writes are ignored by `List.set`). -/
def Heap.setString (h : Heap) (a : Nat) (s : String) : Heap :=
  { h with strings := h.strings.set a (some s) }

/-- Release (free) of the string cell at address `a`. -/
def Heap.freeString (h : Heap) (a : Nat) : Heap :=
  { h with strings := h.strings.set a none }

/-- Allocate a fresh concept cell holding `c`; returns the new heap and the
fresh address. -/
def Heap.allocConcept (h : Heap) (c : Concept) : Heap × Nat :=
  ({ h with concepts := h.concepts ++ [some c] }, h.concepts.length)

/-- Overwrite the concept record at address `a`. -/
def Heap.setConcept (h : Heap) (a : Nat) (c : Concept) : Heap :=
  { h with concepts := h.concepts.set a (some c) }

/-- Release (free) of the concept record at address `a` (also stands for freeing
its `slots` array, whose block has no separate observable content). -/
def Heap.freeConcept (h : Heap) (a : Nat) : Heap :=
  { h with concepts := h.concepts.set a none }

/-- Function `strdup`: read the string at `p` and copy it into fresh storage.
Dereferencing a dangling pointer is UB, modelled as `none`. -/
def strdup (h : Heap) (a : Nat) : Option (Heap × Nat) :=
  match h.getString a with
  | none => none
  | some s => some (h.allocString s)

/-- Function `create_concept` (`concept.c:178-202`): `malloc` a record, `strdup`
the id and the type into node-owned storage, initialize `slots = NULL`,
`slot_count = 0`, `slot_capacity = 0`, and return the new record's
address.  Allocation failure aborts the process in the source, so the
only `none` case here is dereferencing a dangling id/type pointer. -/
def create_concept (h : Heap) (id ty : Nat) : Option (Heap × Nat) :=
  match strdup h id with
  | none => none
  | some (h1, idAddr) =>
    match strdup h1 ty with
    | none => none
    | some (h2, tyAddr) =>
      some (h2.allocConcept { id := idAddr, types := tyAddr, slots := [], slot_capacity := 0 })

/-- The capacity chosen by `add_slot` when it grows
(`concept.c:110`, with the `concet` slip read as `concept`):
`(slot_capacity == 0) ? 2 : slot_capacity * 2`. -/
def grow_capacity (cap : Nat) : Nat :=
  if cap = 0 then 2 else cap * 2

/-- Function `add_slot` (`concept.c:103-127`): if `concept`, `slot_name` or
`target` is `NULL`, silently return with the heap unchanged.  Otherwise
grow the slot array when `slot_count >= slot_capacity` (`realloc`
preserves the populated prefix, which the list model keeps implicit),
`strdup` the relation name into slot-owned storage, store the target
pointer unchanged, and increment the count.  Dereferencing a dangling
concept or name pointer is UB, modelled as `none`. -/
def add_slot (h : Heap) (concept slot_name target : Option Nat) : Option Heap :=
  match concept, slot_name, target with
  | some cAddr, some nAddr, some tAddr =>
    match h.getConcept cAddr with
    | none => none
    | some c =>
      let newCap := if c.slots.length ≥ c.slot_capacity then grow_capacity c.slot_capacity else c.slot_capacity
      match strdup h nAddr with
      | none => none
      | some (h1, nameAddr) =>
        some (h1.setConcept cAddr
          { c with slots := c.slots ++ [{ name := nameAddr, target := some tAddr }],
                   slot_capacity := newCap })
  | _, _, _ => some h

/-- One slot's lines as printed by the loop body of `print_concept`
(`concept.c:49-57`, with the two missing `->` slips corrected to the
documented intent): ordinal, name, then the target's id or `(null)`. -/
def render_slot (h : Heap) (i : Nat) (s : Slot) : Option String :=
  match h.getString s.name with
  | none => none
  | some n =>
    let head := "\t#" ++ toString (i + 1) ++ "\n\t\tName: " ++ n ++ "\n"
    match s.target with
    | none => some (head ++ "\t\tTarget: (null)\n")
    | some tAddr =>
      match h.getConcept tAddr with
      | none => none
      | some t =>
        match h.getString t.id with
        | none => none
        | some tid => some (head ++ "\t\tTarget: " ++ tid ++ "\n")

/-- The slot loop of `print_concept`, accumulating the text of the slots
starting at 0-based index `i`. -/
def render_slots (h : Heap) : List Slot → Nat → Option String
  | [], _ => some ""
  | s :: rest, i =>
    match render_slot h i s, render_slots h rest (i + 1) with
    | some a, some b => some (a ++ b)
    | _, _ => none

/-- Function `print_concept` (`concept.c:43-59`): `NULL` concept is a no-op (no
output); otherwise print the id, the type label, the slot count, then
each slot.  The source only reads (its parameter is `const Concept*` and
the body contains no assignment), so the heap is returned unchanged,
paired with the text written to stdout. -/
def print_concept (h : Heap) (concept : Option Nat) : Option (Heap × String) :=
  match concept with
  | none => some (h, "")
  | some cAddr =>
    match h.getConcept cAddr with
    | none => none
    | some c =>
      match h.getString c.id, h.getString c.types with
      | some i, some ty =>
        match render_slots h c.slots 0 with
        | none => none
        | some body =>
          some (h, "ID: " ++ i ++ "\nTypes: " ++ ty ++ "\nSlots (# of slots = "
                   ++ toString c.slot_count ++ "):\n" ++ body)
      | _, _ => none

/-- The loop of `free_concept` that frees each slot's owned name string. -/
def free_slot_names (h : Heap) : List Slot → Heap
  | [] => h
  | s :: rest => free_slot_names (h.freeString s.name) rest

/-- Function `free_concept` (`concept.c:241-254`): `NULL` is a no-op; otherwise
free the id string, the type string, each slot's name string (never the
slot's target), the slots array, and finally the record itself.  Freeing
a dangling record (double free) is UB, modelled as `none`. -/
def free_concept (h : Heap) (concept : Option Nat) : Option Heap :=
  match concept with
  | none => some h
  | some cAddr =>
    match h.getConcept cAddr with
    | none => none
    | some c =>
      some ((free_slot_names ((h.freeString c.id).freeString c.types) c.slots).freeConcept cAddr)

/-- A sequence of `add_slot` calls on one concept, each passing a present
concept, a present name pointer and a present target pointer (the loop a
caller such as `main.c` would write). -/
def add_slots (h : Heap) (c : Nat) : List (Nat × Nat) → Option Heap
  | [] => some h
  | (n, t) :: rest =>
    match add_slot h (some c) (some n) (some t) with
    | none => none
    | some h1 => add_slots h1 c rest

/-- The string-literal pool of `main.c`: the five literals `"john"`,
`"Person"`, `"book"`, `"Object"`, `"owns"` at addresses 0-4, with no
concept allocated yet. -/
def demo_pool : Heap :=
  { strings := [some "john", some "Person", some "book", some "Object", some "owns"],
    concepts := [] }

/-- The demo driver of `main.c:3-11`: construct `john`/`Person`,
construct `book`/`Object`, `add_slot(john, "owns", book)`, then
`print_concept(john)`; the result is the text written to stdout. -/
def demo_render : Option String :=
  match create_concept demo_pool 0 1 with
  | none => none
  | some (h1, john) =>
    match create_concept h1 2 3 with
    | none => none
    | some (h2, book) =>
      match add_slot h2 (some john) (some 4) (some book) with
      | none => none
      | some h3 =>
        match print_concept h3 (some john) with
        | none => none
        | some (_, txt) => some txt

/-- Capacity probe: construct a concept from a two-literal pool, append
`k` self-targeted slots named by literal 1, and report the resulting
`slot_capacity`. -/
def caps_after (k : Nat) : Option Nat :=
  match create_concept { strings := [some "c", some "rel"], concepts := [] } 0 0 with
  | none => none
  | some (h1, c) =>
    match add_slots h1 c (List.replicate k (1, c)) with
    | none => none
    | some h2 =>
      match h2.getConcept c with
      | none => none
      | some co => some co.slot_capacity

/-- A concrete two-concept heap used to instantiate theorems: concept 0
(`john`, a `Person`) has one slot `owns` targeting concept 1 (`book`, an
`Object`); the strings live at distinct addresses as the allocator would
produce them. -/
def sample_heap : Heap :=
  { strings := [some "john", some "Person", some "owns", some "book", some "Object"],
    concepts := [some { id := 0, types := 1, slots := [{ name := 2, target := some 1 }], slot_capacity := 2 },
                 some { id := 3, types := 4, slots := [], slot_capacity := 0 }] }

/-- Predicate (as a boolean) that a stored concept cell respects its
capacity: a freed cell trivially does, a live one has
`slot_count <= slot_capacity`. -/
def concept_ok (oc : Option Concept) : Bool :=
  match oc with
  | none => true
  | some c => c.slot_count ≤ c.slot_capacity

/-- Heap-wide invariant: every concept cell respects its capacity. -/
def HeapInv (h : Heap) : Prop := h.concepts.all concept_ok = true

/-- Decidability of the heap invariant on concrete heaps. -/
instance decidableHeapInv (h : Heap) : Decidable (HeapInv h) :=
  inferInstanceAs (Decidable (h.concepts.all concept_ok = true))

/-- Addresses of the strings a concept owns (and that `free_concept`
releases): its id, its type label, and each slot's relation name. -/
def owned_strings (c : Concept) : List Nat := c.id :: c.types :: c.slots.map Slot.name

/-- Separation condition for one slot of a rendered concept: its name
does not alias a freed string, and its target (when present) is not the
torn-down concept and has an id string that is not freed either. -/
def slot_avoids (h : Heap) (cAddr : Nat) (freed : List Nat) (s : Slot) : Bool :=
  decide (s.name ∉ freed) &&
  (match s.target with
   | none => true
   | some u => decide (u ≠ cAddr) && ((h.getConcept u).all (fun uo => decide (uo.id ∉ freed))))

/-- Separation condition for a whole concept `tc`: nothing its rendering
reads aliases the strings freed by tearing down the concept at `cAddr`,
and none of its slots points back at `cAddr`.  In heaps produced by the
four operations this always holds, because every owned string lives in
its own freshly allocated cell. -/
def avoids (h : Heap) (cAddr : Nat) (freed : List Nat) (tc : Concept) : Bool :=
  decide (tc.id ∉ freed) && decide (tc.types ∉ freed) &&
  tc.slots.all (slot_avoids h cAddr freed)

/-- Successful string reads are in bounds. -/
theorem Heap.getString_lt (h : Heap) (a : Nat) (s : String) (hs : h.getString a = some s) :
    a < h.strings.length := by
  by_contra hlt
  push_neg at hlt
  simp [Heap.getString, List.getElem?_eq_none hlt] at hs

/-- Successful concept reads are in bounds. -/
theorem Heap.getConcept_lt (h : Heap) (a : Nat) (c : Concept) (hc : h.getConcept a = some c) :
    a < h.concepts.length := by
  by_contra hlt
  push_neg at hlt
  simp [Heap.getConcept, List.getElem?_eq_none hlt] at hc

/-- Allocating a string does not disturb existing string cells. -/
theorem Heap.getString_allocString (h : Heap) (s : String) (a : Nat) (ha : a < h.strings.length) :
    (h.allocString s).1.getString a = h.getString a := by
  simp [Heap.allocString, Heap.getString, List.getElem?_append_left ha]

/-- A freshly allocated string cell holds the allocated value. -/
theorem Heap.getString_allocString_self (h : Heap) (s : String) :
    (h.allocString s).1.getString h.strings.length = some s := by
  simp [Heap.allocString, Heap.getString, List.getElem?_concat_length]

/-- Updating a concept cell does not disturb string cells. -/
theorem Heap.getString_setConcept (h : Heap) (a : Nat) (c : Concept) (b : Nat) :
    (h.setConcept a c).getString b = h.getString b := rfl

/-- Allocating a string does not disturb concept cells. -/
theorem Heap.getConcept_allocString (h : Heap) (s : String) (b : Nat) :
    (h.allocString s).1.getConcept b = h.getConcept b := rfl

/-- Reading back an updated concept cell. -/
theorem Heap.getConcept_setConcept_self (h : Heap) (a : Nat) (c : Concept) (ha : a < h.concepts.length) :
    (h.setConcept a c).getConcept a = some c := by
  simp [Heap.setConcept, Heap.getConcept, List.getElem?_set_self ha]

/-- Updating one concept cell does not disturb the others. -/
theorem Heap.getConcept_setConcept_ne (h : Heap) (a b : Nat) (c : Concept) (hab : a ≠ b) :
    (h.setConcept a c).getConcept b = h.getConcept b := by
  simp [Heap.setConcept, Heap.getConcept, List.getElem?_set_ne hab]

/-- Allocating a concept does not disturb string cells. -/
theorem Heap.getString_allocConcept (h : Heap) (c : Concept) (a : Nat) :
    (h.allocConcept c).1.getString a = h.getString a := rfl

/-- A freshly allocated concept cell holds the allocated record. -/
theorem Heap.getConcept_allocConcept_self (h : Heap) (c : Concept) :
    (h.allocConcept c).1.getConcept h.concepts.length = some c := by
  simp [Heap.allocConcept, Heap.getConcept, List.getElem?_concat_length]

/-- Overwriting one string cell does not disturb the others. -/
theorem Heap.getString_setString_ne (h : Heap) (a b : Nat) (s : String) (hab : a ≠ b) :
    (h.setString a s).getString b = h.getString b := by
  simp [Heap.setString, Heap.getString, List.getElem?_set_ne hab]

/-- Freeing one string cell does not disturb the others. -/
theorem Heap.getString_freeString_ne (h : Heap) (a b : Nat) (hab : a ≠ b) :
    (h.freeString a).getString b = h.getString b := by
  simp [Heap.freeString, Heap.getString, List.getElem?_set_ne hab]

/-- Freeing a concept cell does not disturb string cells. -/
theorem Heap.getString_freeConcept (h : Heap) (a b : Nat) :
    (h.freeConcept a).getString b = h.getString b := rfl

/-- Freeing one concept cell does not disturb the others. -/
theorem Heap.getConcept_freeConcept_ne (h : Heap) (a b : Nat) (hab : a ≠ b) :
    (h.freeConcept a).getConcept b = h.getConcept b := by
  simp [Heap.freeConcept, Heap.getConcept, List.getElem?_set_ne hab]

/-- A freed concept cell reads back as absent. -/
theorem Heap.getConcept_freeConcept_self (h : Heap) (a : Nat) :
    (h.freeConcept a).getConcept a = none := by
  unfold Heap.freeConcept Heap.getConcept
  by_cases ha : a < h.concepts.length
  · rw [List.getElem?_set_self ha]
    rfl
  · push_neg at ha
    rw [List.getElem?_eq_none (by simpa [List.length_set] using ha)]
    rfl

/-- Explicit form of a successful `add_slot` call: the relation name is
copied into the next free string cell and the concept record is rewritten
with one more slot and the (possibly grown) capacity. -/
theorem add_slot_eq (h : Heap) (cAddr nAddr tAddr : Nat) (c : Concept) (v : String)
    (hc : h.getConcept cAddr = some c) (hn : h.getString nAddr = some v) :
    add_slot h (some cAddr) (some nAddr) (some tAddr) =
      some ((h.allocString v).1.setConcept cAddr
        { c with slots := c.slots ++ [{ name := h.strings.length, target := some tAddr }],
                 slot_capacity := if c.slots.length ≥ c.slot_capacity then grow_capacity c.slot_capacity
                                  else c.slot_capacity }) := by
  simp [add_slot, strdup, hc, hn, Heap.allocString]

/-- A successful `add_slot` appends exactly one string cell (the copied
relation name) to the string store. -/
theorem add_slot_strings (h : Heap) (ca na ta : Nat) (h' : Heap)
    (he : add_slot h (some ca) (some na) (some ta) = some h') :
    ∃ v, h.getString na = some v ∧ h'.strings = h.strings ++ [some v] := by
  simp only [add_slot] at he
  cases hc : h.getConcept ca with
  | none => simp [hc] at he
  | some c =>
    simp only [hc] at he
    cases hn : h.getString na with
    | none => simp [strdup, hn] at he
    | some v =>
      refine ⟨v, rfl, ?_⟩
      simp only [strdup, hn, Heap.allocString] at he
      simp only [Option.some.injEq] at he
      rw [← he]
      rfl

/-- A run of `add_slots` only appends string cells, so existing string
cells keep their values. -/
theorem add_slots_getString_mono : ∀ (l : List (Nat × Nat)) (h : Heap) (c : Nat) (h' : Heap),
    add_slots h c l = some h' →
    h.strings.length ≤ h'.strings.length ∧
    ∀ a, a < h.strings.length → h'.getString a = h.getString a := by
  intro l
  induction l with
  | nil =>
    intro h c h' he
    simp only [add_slots, Option.some.injEq] at he
    subst he
    exact ⟨le_refl _, fun a _ => rfl⟩
  | cons p rest ih =>
    intro h c h' he
    obtain ⟨n, t⟩ := p
    simp only [add_slots] at he
    cases h1e : add_slot h (some c) (some n) (some t) with
    | none => simp [h1e] at he
    | some h1 =>
      simp only [h1e] at he
      obtain ⟨v, hv, hstr⟩ := add_slot_strings h c n t h1 h1e
      obtain ⟨hle, hpres⟩ := ih h1 c h' he
      have hlen1 : h1.strings.length = h.strings.length + 1 := by rw [hstr]; simp
      constructor
      · omega
      · intro a ha
        rw [hpres a (by omega)]
        simp only [Heap.getString, hstr]
        rw [List.getElem?_append_left ha]

/-- Weakening of the per-slot postcondition of `add_slots` from an
intermediate heap back to the starting heap, possible because the
intermediate heap only extends the string store. -/
theorem forall2_slots_weaken (h h1 h' : Heap)
    (hp : ∀ a, a < h.strings.length → h1.getString a = h.getString a)
    (hle : h.strings.length ≤ h1.strings.length) :
    ∀ (l : List (Nat × Nat)) (news : List Slot),
    List.Forall₂ (fun (p : Nat × Nat) (s : Slot) =>
      s.target = some p.2 ∧ h'.getString s.name = h1.getString p.1 ∧ h1.strings.length ≤ s.name) l news →
    (∀ p ∈ l, (h.getString p.1).isSome) →
    List.Forall₂ (fun (p : Nat × Nat) (s : Slot) =>
      s.target = some p.2 ∧ h'.getString s.name = h.getString p.1 ∧ h.strings.length ≤ s.name) l news := by
  intro l
  induction l with
  | nil =>
    intro news hfa _
    cases hfa
    exact List.Forall₂.nil
  | cons p rest ih =>
    intro news hfa hl
    cases hfa with
    | cons hhead htail =>
      refine List.Forall₂.cons ⟨hhead.1, ?_, by have := hhead.2.2; omega⟩
        (ih _ htail (fun q hq => hl q (List.mem_cons_of_mem _ hq)))
      obtain ⟨w, hw⟩ := Option.isSome_iff_exists.mp (hl p (List.mem_cons_self _ _))
      rw [hhead.2.1, hp p.1 (Heap.getString_lt _ _ _ hw)]

/-- Core specification of a run of `add_slots`: it succeeds, leaves the
id and the type alone, and appends one slot per call, in call order,
holding a fresh copy of that call's name and exactly that call's target. -/
theorem add_slots_spec : ∀ (l : List (Nat × Nat)) (h : Heap) (c : Nat) (c0 : Concept),
    h.getConcept c = some c0 →
    (∀ p ∈ l, (h.getString p.1).isSome) →
    ∃ h' c1, add_slots h c l = some h' ∧ h'.getConcept c = some c1 ∧
      c1.id = c0.id ∧ c1.types = c0.types ∧
      ∃ news, c1.slots = c0.slots ++ news ∧
        List.Forall₂ (fun (p : Nat × Nat) (s : Slot) =>
          s.target = some p.2 ∧ h'.getString s.name = h.getString p.1 ∧ h.strings.length ≤ s.name) l news := by
  intro l
  induction l with
  | nil =>
    intro h c c0 hc _
    exact ⟨h, c0, rfl, hc, rfl, rfl, [], by simp, List.Forall₂.nil⟩
  | cons p rest ih =>
    intro h c c0 hc hl
    obtain ⟨n, t⟩ := p
    obtain ⟨v, hv⟩ := Option.isSome_iff_exists.mp (hl (n, t) (List.mem_cons_self _ _))
    have hlenc : c < h.concepts.length := Heap.getConcept_lt h c c0 hc
    have hstep := add_slot_eq h c n t c0 v hc hv
    set newSlot : Slot := { name := h.strings.length, target := some t } with hns
    set c0' : Concept :=
      { c0 with slots := c0.slots ++ [newSlot],
                slot_capacity := if c0.slots.length ≥ c0.slot_capacity then grow_capacity c0.slot_capacity
                                 else c0.slot_capacity } with hc0'
    set h1 : Heap := (h.allocString v).1.setConcept c c0' with hh1
    have hc1 : h1.getConcept c = some c0' :=
      Heap.getConcept_setConcept_self _ _ _ (by simpa [Heap.allocString] using hlenc)
    have hlen1 : h1.strings.length = h.strings.length + 1 := by
      simp [hh1, Heap.setConcept, Heap.allocString]
    have h1pres : ∀ a, a < h.strings.length → h1.getString a = h.getString a := by
      intro a ha
      rw [hh1, Heap.getString_setConcept, Heap.getString_allocString _ _ _ ha]
    have hrest : ∀ p ∈ rest, (h1.getString p.1).isSome := by
      intro p hp
      obtain ⟨w, hw⟩ := Option.isSome_iff_exists.mp (hl p (List.mem_cons_of_mem _ hp))
      rw [h1pres p.1 (Heap.getString_lt _ _ _ hw), hw]
      rfl
    obtain ⟨h', c1, hrun, hgc, hid, hty, news', hslots, hfa⟩ := ih h1 c c0' hc1 hrest
    have hmono := add_slots_getString_mono rest h1 c h' hrun
    refine ⟨h', c1, ?_, hgc, by rw [hid], by rw [hty], newSlot :: news', ?_, ?_⟩
    · simp only [add_slots, hstep]
      exact hrun
    · rw [hslots]
      simp [hc0']
    · refine List.Forall₂.cons ⟨rfl, ?_, le_refl _⟩ ?_
      · have hself : h1.getString h.strings.length = some v := by
          rw [hh1, Heap.getString_setConcept, Heap.getString_allocString_self]
        rw [hmono.2 h.strings.length (by omega), hself, hv]
      · exact forall2_slots_weaken h h1 h' h1pres (by omega) rest news'
          (by simpa [hlen1] using hfa)
          (fun q hq => hl q (List.mem_cons_of_mem _ hq))

/-- Conversion of the freshness bound on a new slot's name into the
claim's form: the copied name never aliases the caller's name pointer. -/
theorem forall2_slots_fresh (h h' : Heap) :
    ∀ (l : List (Nat × Nat)) (news : List Slot),
    List.Forall₂ (fun (p : Nat × Nat) (s : Slot) =>
      s.target = some p.2 ∧ h'.getString s.name = h.getString p.1 ∧ h.strings.length ≤ s.name) l news →
    (∀ p ∈ l, (h.getString p.1).isSome) →
    List.Forall₂ (fun (p : Nat × Nat) (s : Slot) =>
      s.target = some p.2 ∧ h'.getString s.name = h.getString p.1 ∧ s.name ≠ p.1) l news := by
  intro l
  induction l with
  | nil =>
    intro news hfa _
    cases hfa
    exact List.Forall₂.nil
  | cons p rest ih =>
    intro news hfa hl
    cases hfa with
    | cons hhead htail =>
      refine List.Forall₂.cons ⟨hhead.1, hhead.2.1, ?_⟩
        (ih _ htail (fun q hq => hl q (List.mem_cons_of_mem _ hq)))
      obtain ⟨w, hw⟩ := Option.isSome_iff_exists.mp (hl p (List.mem_cons_self _ _))
      have hb := Heap.getString_lt _ _ _ hw
      have hf := hhead.2.2
      omega

/-- Strings duplicated by `strdup` land in fresh cells; the concept store
is untouched. -/
theorem strdup_concepts (h : Heap) (x : Nat) (h1 : Heap) (b : Nat)
    (he : strdup h x = some (h1, b)) : h1.concepts = h.concepts := by
  unfold strdup at he
  cases hs : h.getString x with
  | none => rw [hs] at he; cases he
  | some v =>
    rw [hs] at he
    simp only [Option.some.injEq, Prod.mk.injEq, Heap.allocString] at he
    rw [← he.1]

/-- Helper behind C9 and C7: a successful render returns exactly the heap
it was given, because the source contains no assignment. -/
theorem print_concept_fst_eq (h : Heap) (c : Option Nat) (r : Heap × String)
    (hr : print_concept h c = some r) : r.1 = h := by
  cases c with
  | none => simp [print_concept] at hr; simp [← hr]
  | some a =>
    simp only [print_concept] at hr
    cases hg : h.getConcept a with
    | none => simp [hg] at hr
    | some c =>
      simp only [hg] at hr
      cases hi : h.getString c.id with
      | none => simp [hi] at hr
      | some i =>
        simp only [hi] at hr
        cases ht : h.getString c.types with
        | none => simp [ht] at hr
        | some ty =>
          simp only [ht] at hr
          cases hb : render_slots h c.slots 0 with
          | none => simp [hb] at hr
          | some body =>
            simp only [hb, Option.some.injEq] at hr
            rw [← hr]

/-- Extraction of the capacity invariant for a concept read from an
invariant-respecting heap. -/
theorem HeapInv.le (h : Heap) (hi : HeapInv h) (a : Nat) (c : Concept)
    (hc : h.getConcept a = some c) : c.slot_count ≤ c.slot_capacity := by
  have hsome : h.concepts[a]? = some (some c) := by
    unfold Heap.getConcept at hc
    cases hx : h.concepts[a]? with
    | none => rw [hx] at hc; cases hc
    | some oc =>
      rw [hx] at hc
      cases oc with
      | none => cases hc
      | some c2 => simp only [Option.join, Option.some_bind, id] at hc; rw [hc]
  have hm : some c ∈ h.concepts := List.getElem?_mem hsome
  have := (List.all_eq_true.mp hi) (some c) hm
  simpa [concept_ok] using this

/-- Writing an invariant-respecting record preserves the heap invariant. -/
theorem HeapInv.setConcept (h : Heap) (a : Nat) (c : Concept) (hi : HeapInv h)
    (hok : c.slot_count ≤ c.slot_capacity) : HeapInv (h.setConcept a c) := by
  unfold HeapInv Heap.setConcept
  rw [List.all_eq_true]
  intro x hx
  rcases List.mem_or_eq_of_mem_set hx with hmem | hx2
  · exact (List.all_eq_true.mp hi) x hmem
  · subst hx2; simpa [concept_ok] using hok

/-- Allocating a string preserves the heap invariant. -/
theorem HeapInv.allocString (h : Heap) (s : String) (hi : HeapInv h) :
    HeapInv (h.allocString s).1 := hi

/-- Allocating an invariant-respecting record preserves the invariant. -/
theorem HeapInv.allocConcept (h : Heap) (c : Concept) (hi : HeapInv h)
    (hok : c.slot_count ≤ c.slot_capacity) : HeapInv (h.allocConcept c).1 := by
  unfold HeapInv Heap.allocConcept
  simp only [List.all_append, Bool.and_eq_true]
  exact ⟨hi, by simpa [concept_ok] using hok⟩

/-- Freeing a concept cell preserves the heap invariant. -/
theorem HeapInv.freeConcept (h : Heap) (a : Nat) (hi : HeapInv h) :
    HeapInv (h.freeConcept a) := by
  unfold HeapInv Heap.freeConcept
  rw [List.all_eq_true]
  intro x hx
  rcases List.mem_or_eq_of_mem_set hx with hmem | hx2
  · exact (List.all_eq_true.mp hi) x hmem
  · subst hx2; rfl

/-- Freeing slot-name strings never touches the concept store. -/
theorem free_slot_names_concepts : ∀ (l : List Slot) (h : Heap),
    (free_slot_names h l).concepts = h.concepts := by
  intro l
  induction l with
  | nil => intro h; rfl
  | cons s rest ih => intro h; simp only [free_slot_names]; rw [ih]; rfl

/-- Growth rule of `add_slot` in closed form: `max 2 (cap * 2)`. -/
theorem grow_capacity_eq_max : ∀ cap, grow_capacity cap = max 2 (cap * 2) := by
  intro cap
  unfold grow_capacity
  rcases cap with _ | n
  · rfl
  · simp [Nat.max_eq_right]

/-- Trivial shape of the capacity-growth postcondition when the heap is
unchanged (the silent no-op branches of `add_slot`). -/
theorem capacity_shape_refl (h : Heap) (hi : HeapInv h) :
    HeapInv h ∧ ∀ (a : Nat) (c0 c1 : Concept),
      h.getConcept a = some c0 → h.getConcept a = some c1 →
      c0.slot_capacity ≤ c1.slot_capacity ∧
      (c1.slot_capacity = c0.slot_capacity ∨
        (c0.slot_count = c0.slot_capacity ∧ c1.slot_capacity = max 2 (c0.slot_capacity * 2))) := by
  refine ⟨hi, ?_⟩
  intro a c0 c1 hc0 hc1
  rw [hc0] at hc1
  cases hc1
  exact ⟨le_refl _, Or.inl rfl⟩

/-- Freeing slot-name strings leaves every string cell outside that name
list unchanged. -/
theorem free_slot_names_getString : ∀ (l : List Slot) (h : Heap) (a : Nat),
    a ∉ l.map Slot.name → (free_slot_names h l).getString a = h.getString a := by
  intro l
  induction l with
  | nil => intro h a _; rfl
  | cons s rest ih =>
    intro h a ha
    simp only [List.map_cons, List.mem_cons] at ha
    push_neg at ha
    simp only [free_slot_names]
    rw [ih _ _ ha.2, Heap.getString_freeString_ne _ _ _ (fun hx => ha.1 hx.symm)]

/-- Frame of `free_concept`: only the concept's own string cells and its
own record change; the record reads back as freed. -/
theorem free_concept_frame (h : Heap) (cAddr : Nat) (co : Concept) (h' : Heap)
    (hc : h.getConcept cAddr = some co)
    (he : free_concept h (some cAddr) = some h') :
    (∀ a, a ∉ owned_strings co → h'.getString a = h.getString a) ∧
    (∀ d, d ≠ cAddr → h'.getConcept d = h.getConcept d) ∧
    h'.getConcept cAddr = none := by
  simp only [free_concept, hc, Option.some.injEq] at he
  subst he
  refine ⟨?_, ?_, ?_⟩
  · intro a ha
    simp only [owned_strings, List.mem_cons] at ha
    push_neg at ha
    rw [Heap.getString_freeConcept, free_slot_names_getString _ _ _ ha.2.2,
        Heap.getString_freeString_ne _ _ _ (fun hx => ha.2.1 hx.symm),
        Heap.getString_freeString_ne _ _ _ (fun hx => ha.1 hx.symm)]
  · intro d hd
    rw [Heap.getConcept_freeConcept_ne _ _ _ (fun hx => hd hx.symm)]
    unfold Heap.getConcept
    rw [free_slot_names_concepts]
    rfl
  · exact Heap.getConcept_freeConcept_self _ _

/-- One slot renders identically in any heap that preserves the strings
and concepts its rendering reads. -/
theorem render_slot_preserved (h h2 : Heap) (cAddr : Nat) (freed : List Nat)
    (hstr : ∀ a, a ∉ freed → h2.getString a = h.getString a)
    (hcon : ∀ d, d ≠ cAddr → h2.getConcept d = h.getConcept d)
    (i : Nat) (s : Slot)
    (hok : slot_avoids h cAddr freed s = true) :
    render_slot h2 i s = render_slot h i s := by
  cases hst : s.target with
  | none =>
    simp only [slot_avoids, hst, Bool.and_eq_true] at hok
    have hn : s.name ∉ freed := of_decide_eq_true hok.1
    simp only [render_slot, hst, hstr s.name hn]
  | some u =>
    simp only [slot_avoids, hst, Bool.and_eq_true] at hok
    have hn : s.name ∉ freed := of_decide_eq_true hok.1
    have hu : u ≠ cAddr := of_decide_eq_true hok.2.1
    simp only [render_slot, hst, hstr s.name hn, hcon u hu]
    cases hv : h.getString s.name with
    | none => rfl
    | some n =>
      cases hgu : h.getConcept u with
      | none => rfl
      | some uo =>
        have huo : uo.id ∉ freed := by
          have := hok.2.2
          rw [hgu] at this
          simp only [Option.all] at this
          exact of_decide_eq_true this
        simp [hstr uo.id huo]

/-- The slot loop renders identically under the same conditions. -/
theorem render_slots_preserved (h h2 : Heap) (cAddr : Nat) (freed : List Nat)
    (hstr : ∀ a, a ∉ freed → h2.getString a = h.getString a)
    (hcon : ∀ d, d ≠ cAddr → h2.getConcept d = h.getConcept d) :
    ∀ (l : List Slot) (i : Nat), l.all (slot_avoids h cAddr freed) = true →
    render_slots h2 l i = render_slots h l i := by
  intro l
  induction l with
  | nil => intro i _; rfl
  | cons s rest ih =>
    intro i hall
    simp only [List.all_cons, Bool.and_eq_true] at hall
    simp only [render_slots]
    rw [render_slot_preserved h h2 cAddr freed hstr hcon i s hall.1, ih (i + 1) hall.2]

/-- A concept whose rendering avoids the freed cells renders the same
text after the teardown of another concept. -/
theorem print_concept_preserved (h h2 : Heap) (cAddr : Nat) (freed : List Nat) (t : Nat) (tc : Concept)
    (hstr : ∀ a, a ∉ freed → h2.getString a = h.getString a)
    (hcon : ∀ d, d ≠ cAddr → h2.getConcept d = h.getConcept d)
    (htc : h.getConcept t = some tc) (htne : t ≠ cAddr)
    (hok : avoids h cAddr freed tc = true) :
    ∀ txt, print_concept h (some t) = some (h, txt) → print_concept h2 (some t) = some (h2, txt) := by
  intro txt hp
  simp only [avoids, Bool.and_eq_true] at hok
  obtain ⟨⟨hid, hty⟩, hslots⟩ := hok
  simp only [print_concept, htc] at hp
  simp only [print_concept, hcon t htne, htc]
  rw [hstr tc.id (of_decide_eq_true hid), hstr tc.types (of_decide_eq_true hty),
      render_slots_preserved h h2 cAddr freed hstr hcon tc.slots 0 hslots]
  cases hiv : h.getString tc.id with
  | none => simp [hiv] at hp
  | some iv =>
    simp only [hiv] at hp ⊢
    cases htv : h.getString tc.types with
    | none => simp [htv] at hp
    | some tv =>
      simp only [htv] at hp ⊢
      cases hb : render_slots h tc.slots 0 with
      | none => simp [hb] at hp
      | some body =>
        simp only [hb, Option.some.injEq, Prod.mk.injEq, true_and] at hp ⊢
        exact hp

/-- C1: for every sequence of appends to one freshly constructed concept
in which each call passes a present concept, a present (live) name and a
present target, the sequence succeeds, the slot count afterwards equals
the number of calls, the slots stand in exactly call order, and each slot
holds a fresh copy of its call's name (value-equal, different address)
and exactly the target reference of its call — duplicate relation names
included, since nothing deduplicates. -/
theorem append_sequence_order :
    ∀ (h : Heap) (c : Nat) (c0 : Concept) (l : List (Nat × Nat)),
    h.getConcept c = some c0 → c0.slots = [] →
    (∀ p ∈ l, (h.getString p.1).isSome) →
    ∃ h' c1, add_slots h c l = some h' ∧ h'.getConcept c = some c1 ∧
      c1.slot_count = l.length ∧
      List.Forall₂ (fun (p : Nat × Nat) (s : Slot) =>
        s.target = some p.2 ∧ h'.getString s.name = h.getString p.1 ∧ s.name ≠ p.1) l c1.slots := by
  intro h c c0 l hc he hl
  obtain ⟨h', c1, hrun, hgc, -, -, news, hslots, hfa⟩ := add_slots_spec l h c c0 hc hl
  rw [he, List.nil_append] at hslots
  refine ⟨h', c1, hrun, hgc, ?_, ?_⟩
  · rw [Concept.slot_count, hslots, ← List.Forall₂.length_eq hfa]
  · rw [hslots]
    exact forall2_slots_fresh h h' l news hfa hl

/-- Witness for C1: two appends with the duplicate relation name `owns`
(address 2) to the two distinct targets 0 and 1, on the empty-slotted
concept 1 of `sample_heap`. -/
theorem append_sequence_order_witness :
    (sample_heap.getConcept 1 = some { id := 3, types := 4, slots := [], slot_capacity := 0 } ∧
     ({ id := 3, types := 4, slots := [], slot_capacity := 0 } : Concept).slots = [] ∧
     (∀ p ∈ ([(2, 0), (2, 1)] : List (Nat × Nat)), (sample_heap.getString p.1).isSome)) ∧
    (∃ h' c1, add_slots sample_heap 1 [(2, 0), (2, 1)] = some h' ∧ h'.getConcept 1 = some c1 ∧
      c1.slot_count = 2 ∧
      List.Forall₂ (fun (p : Nat × Nat) (s : Slot) =>
        s.target = some p.2 ∧ h'.getString s.name = sample_heap.getString p.1 ∧ s.name ≠ p.1)
        [(2, 0), (2, 1)] c1.slots) :=
  ⟨⟨by decide, by decide, by decide⟩,
   append_sequence_order sample_heap 1 { id := 3, types := 4, slots := [], slot_capacity := 0 }
     [(2, 0), (2, 1)] (by decide) (by decide) (by decide)⟩

/-- C2 (code_bug record): on the model that reads `concept.c:110`'s
`concet`/`size_of` slips as their documented intent, the growth rule is
exactly `max(2, capacity * 2)`, and a fresh concept's capacity is 2 after
the 1st append, 4 after the 3rd, 8 after the 5th and 16 after the 9th.
The shipped line itself does not compile, so the program as written
performs no append at all. -/
theorem add_slot_capacity_growth :
    (∀ cap, grow_capacity cap = max 2 (cap * 2)) ∧
    caps_after 1 = some 2 ∧ caps_after 3 = some 4 ∧
    caps_after 5 = some 8 ∧ caps_after 9 = some 16 :=
  ⟨grow_capacity_eq_max, by decide, by decide, by decide, by decide⟩

/-- C3 (code_bug record): the demo sequence of `main.c` — construct
`john`/`Person`, construct `book`/`Object`, append `owns` from john to
book, render john — emits exactly the claimed text on the model whose
`print_concept` embeds the documented intent of `concept.c:50-57`; the
shipped lines 52 and 54 (`concept>slots[i].name`,
`concept>slots[i].target.id`) do not compile, so the program as written
emits nothing. -/
theorem demo_render_exact :
    demo_render =
      some "ID: john\nTypes: Person\nSlots (# of slots = 1):\n\t#1\n\t\tName: owns\n\t\tTarget: book\n" := by
  decide

/-- C4: for every valid (id, type) pair, `create_concept` yields a
concept whose stored id and type equal the caller's strings in value but
live at fresh node-owned addresses distinct from both caller buffers —
so overwriting the caller's buffers afterwards leaves the stored values
untouched — and whose slot collection is empty with count 0 and
capacity 0. -/
theorem create_concept_independent :
    ∀ (h : Heap) (pid pty : Nat) (vi vt : String),
    h.getString pid = some vi → h.getString pty = some vt →
    ∃ h' a c1, create_concept h pid pty = some (h', a) ∧ h'.getConcept a = some c1 ∧
      h'.getString c1.id = some vi ∧ h'.getString c1.types = some vt ∧
      c1.id ≠ pid ∧ c1.id ≠ pty ∧ c1.types ≠ pid ∧ c1.types ≠ pty ∧
      c1.slots = [] ∧ c1.slot_count = 0 ∧ c1.slot_capacity = 0 ∧
      (∀ s1 s2 : String,
        ((h'.setString pid s1).setString pty s2).getString c1.id = some vi ∧
        ((h'.setString pid s1).setString pty s2).getString c1.types = some vt) := by
  intro h pid pty vi vt hpid hpty
  have hlid : pid < h.strings.length := Heap.getString_lt h pid vi hpid
  have hlty : pty < h.strings.length := Heap.getString_lt h pty vt hpty
  have h1ty : ({ strings := h.strings ++ [some vi], concepts := h.concepts } : Heap).getString pty = some vt := by
    have hx := Heap.getString_allocString h vi pty hlty
    simp only [Heap.allocString] at hx
    rw [hx]; exact hpty
  refine ⟨{ strings := h.strings ++ [some vi, some vt],
            concepts := h.concepts ++ [some { id := h.strings.length, types := h.strings.length + 1,
                                              slots := [], slot_capacity := 0 }] },
          h.concepts.length,
          { id := h.strings.length, types := h.strings.length + 1, slots := [], slot_capacity := 0 },
          ?_, ?_, ?_, ?_, by simp; omega, by simp; omega, by simp; omega, by simp; omega, rfl, rfl, rfl, ?_⟩
  · simp [create_concept, strdup, hpid, h1ty, Heap.allocString, Heap.allocConcept]
  · simp [Heap.getConcept, List.getElem?_concat_length]
  · show Heap.getString _ (h.strings.length) = some vi
    have : h.strings ++ [some vi, some vt] = (h.strings ++ [some vi]) ++ [some vt] := by simp
    simp only [Heap.getString, this]
    rw [List.getElem?_append_left (by simp), List.getElem?_concat_length]
    rfl
  · show Heap.getString _ (h.strings.length + 1) = some vt
    have : h.strings ++ [some vi, some vt] = (h.strings ++ [some vi]) ++ [some vt] := by simp
    simp only [Heap.getString, this]
    have hl : h.strings.length + 1 = (h.strings ++ [some vi]).length := by simp
    rw [hl, List.getElem?_concat_length]
    rfl
  · intro s1 s2
    constructor
    · rw [Heap.getString_setString_ne _ _ _ _ (by simp; omega), Heap.getString_setString_ne _ _ _ _ (by simp; omega)]
      show Heap.getString _ (h.strings.length) = some vi
      have : h.strings ++ [some vi, some vt] = (h.strings ++ [some vi]) ++ [some vt] := by simp
      simp only [Heap.getString, this]
      rw [List.getElem?_append_left (by simp), List.getElem?_concat_length]
      rfl
    · rw [Heap.getString_setString_ne _ _ _ _ (by simp; omega), Heap.getString_setString_ne _ _ _ _ (by simp; omega)]
      show Heap.getString _ (h.strings.length + 1) = some vt
      have : h.strings ++ [some vi, some vt] = (h.strings ++ [some vi]) ++ [some vt] := by simp
      simp only [Heap.getString, this]
      have hl : h.strings.length + 1 = (h.strings ++ [some vi]).length := by simp
      rw [hl, List.getElem?_concat_length]
      rfl

/-- Witness for C4: constructing `john`/`Person` from the `main.c`
literal pool. -/
theorem create_concept_independent_witness :
    (demo_pool.getString 0 = some "john" ∧ demo_pool.getString 1 = some "Person") ∧
    (∃ h' a c1, create_concept demo_pool 0 1 = some (h', a) ∧ h'.getConcept a = some c1 ∧
      h'.getString c1.id = some "john" ∧ h'.getString c1.types = some "Person" ∧
      c1.id ≠ 0 ∧ c1.id ≠ 1 ∧ c1.types ≠ 0 ∧ c1.types ≠ 1 ∧
      c1.slots = [] ∧ c1.slot_count = 0 ∧ c1.slot_capacity = 0 ∧
      (∀ s1 s2 : String,
        ((h'.setString 0 s1).setString 1 s2).getString c1.id = some "john" ∧
        ((h'.setString 0 s1).setString 1 s2).getString c1.types = some "Person")) :=
  ⟨⟨by decide, by decide⟩,
   create_concept_independent demo_pool 0 1 "john" "Person" (by decide) (by decide)⟩

/-- C5: teardown is shallow — `free_concept` releases only the storage
the concept owns (its id string, type string, slot-name strings and its
record), leaving every other string cell and every other concept record
unchanged; in particular every concept the torn-down one referenced as a
slot target (other than itself) keeps its record, and, whenever its own
rendering does not read the released cells (as the caller contract of
§5 guarantees, and as every allocator-built heap satisfies), it renders
exactly the same text afterwards. -/
theorem free_concept_shallow :
    ∀ (h : Heap) (cAddr : Nat) (co : Concept) (h' : Heap),
    h.getConcept cAddr = some co →
    free_concept h (some cAddr) = some h' →
    ((∀ a, a ∉ owned_strings co → h'.getString a = h.getString a) ∧
     (∀ d, d ≠ cAddr → h'.getConcept d = h.getConcept d) ∧
     h'.getConcept cAddr = none) ∧
    (∀ s ∈ co.slots, ∀ t, s.target = some t → t ≠ cAddr →
      h'.getConcept t = h.getConcept t ∧
      (∀ tc, h.getConcept t = some tc → avoids h cAddr (owned_strings co) tc = true →
        ∀ txt, print_concept h (some t) = some (h, txt) →
          print_concept h' (some t) = some (h', txt))) := by
  intro h cAddr co h' hc he
  obtain ⟨hstr, hcon, hself⟩ := free_concept_frame h cAddr co h' hc he
  refine ⟨⟨hstr, hcon, hself⟩, ?_⟩
  intro s hs t hst htne
  refine ⟨hcon t htne, ?_⟩
  intro tc htc hav txt hp
  exact print_concept_preserved h h' cAddr (owned_strings co) t tc hstr hcon htc htne hav txt hp

/-- Witness for C5: tearing down `john` (concept 0 of `sample_heap`)
leaves its target `book` (concept 1) unchanged, and `book` still renders
the same text in the post-teardown heap. -/
theorem free_concept_shallow_witness :
    (sample_heap.getConcept 0 =
       some { id := 0, types := 1, slots := [{ name := 2, target := some 1 }], slot_capacity := 2 } ∧
     free_concept sample_heap (some 0) =
       some { strings := [none, none, none, some "book", some "Object"],
              concepts := [none, some { id := 3, types := 4, slots := [], slot_capacity := 0 }] }) ∧
    ((∀ a, a ∉ owned_strings { id := 0, types := 1, slots := [{ name := 2, target := some 1 }], slot_capacity := 2 } →
        ({ strings := [none, none, none, some "book", some "Object"],
           concepts := [none, some { id := 3, types := 4, slots := [], slot_capacity := 0 }] } : Heap).getString a =
        sample_heap.getString a) ∧
     (∀ d, d ≠ 0 →
        ({ strings := [none, none, none, some "book", some "Object"],
           concepts := [none, some { id := 3, types := 4, slots := [], slot_capacity := 0 }] } : Heap).getConcept d =
        sample_heap.getConcept d) ∧
     ({ strings := [none, none, none, some "book", some "Object"],
        concepts := [none, some { id := 3, types := 4, slots := [], slot_capacity := 0 }] } : Heap).getConcept 0 = none) ∧
    (∀ s ∈ ({ id := 0, types := 1, slots := [{ name := 2, target := some 1 }], slot_capacity := 2 } : Concept).slots,
      ∀ t, s.target = some t → t ≠ 0 →
      ({ strings := [none, none, none, some "book", some "Object"],
         concepts := [none, some { id := 3, types := 4, slots := [], slot_capacity := 0 }] } : Heap).getConcept t =
        sample_heap.getConcept t ∧
      (∀ tc, sample_heap.getConcept t = some tc →
        avoids sample_heap 0 (owned_strings { id := 0, types := 1, slots := [{ name := 2, target := some 1 }], slot_capacity := 2 }) tc = true →
        ∀ txt, print_concept sample_heap (some t) = some (sample_heap, txt) →
          print_concept { strings := [none, none, none, some "book", some "Object"],
                          concepts := [none, some { id := 3, types := 4, slots := [], slot_capacity := 0 }] } (some t) =
            some ({ strings := [none, none, none, some "book", some "Object"],
                    concepts := [none, some { id := 3, types := 4, slots := [], slot_capacity := 0 }] }, txt))) :=
  ⟨⟨by decide, by decide⟩,
   free_concept_shallow sample_heap 0
     { id := 0, types := 1, slots := [{ name := 2, target := some 1 }], slot_capacity := 2 }
     { strings := [none, none, none, some "book", some "Object"],
       concepts := [none, some { id := 3, types := 4, slots := [], slot_capacity := 0 }] }
     (by decide) (by decide)⟩

/-- C6: when the concept argument, the name argument, or the target
argument of `add_slot` is absent (`NULL`), the call is a silent no-op for
each of the three positions independently: the heap — and with it the
concept's slot count, slot contents, capacity, id and type — is returned
unchanged, and the result is a normal `some` (no error is signaled). -/
theorem add_slot_null_noop : ∀ (h : Heap) (c n t : Option Nat),
    add_slot h none n t = some h ∧ add_slot h c none t = some h ∧ add_slot h c n none = some h := by
  intro h c n t
  refine ⟨?_, ?_, ?_⟩
  · cases n <;> cases t <;> rfl
  · cases c <;> cases t <;> rfl
  · cases c <;> cases n <;> rfl

/-- C7: every concept in a live heap has slot count at most slot
capacity; `create_concept` establishes count = capacity = 0 for the new
concept and preserves the invariant, `add_slot` preserves it while never
shrinking any capacity and changing a capacity only to
`max 2 (capacity * 2)` exactly when the count had reached the capacity,
and `print_concept` and `free_concept` preserve the invariant. -/
theorem lifecycle_invariant :
    (∀ (h : Heap) (i t : Nat) (h' : Heap) (a : Nat),
       create_concept h i t = some (h', a) → HeapInv h →
       HeapInv h' ∧ ∃ c1, h'.getConcept a = some c1 ∧ c1.slot_count = 0 ∧ c1.slot_capacity = 0) ∧
    (∀ (h : Heap) (c n t : Option Nat) (h' : Heap),
       add_slot h c n t = some h' → HeapInv h →
       HeapInv h' ∧ ∀ (a : Nat) (c0 c1 : Concept),
         h.getConcept a = some c0 → h'.getConcept a = some c1 →
         c0.slot_capacity ≤ c1.slot_capacity ∧
         (c1.slot_capacity = c0.slot_capacity ∨
           (c0.slot_count = c0.slot_capacity ∧ c1.slot_capacity = max 2 (c0.slot_capacity * 2)))) ∧
    (∀ (h : Heap) (c : Option Nat) (r : Heap × String),
       print_concept h c = some r → HeapInv h → HeapInv r.1) ∧
    (∀ (h : Heap) (c : Option Nat) (h' : Heap),
       free_concept h c = some h' → HeapInv h → HeapInv h') := by
  refine ⟨?_, ?_, ?_, ?_⟩
  · intro h i t h' a he hi
    unfold create_concept at he
    cases hsi : strdup h i with
    | none => rw [hsi] at he; cases he
    | some p1 =>
      obtain ⟨h1, ia⟩ := p1
      simp only [hsi] at he
      cases hst : strdup h1 t with
      | none => simp [hst] at he
      | some p2 =>
        obtain ⟨h2, ta⟩ := p2
        simp only [hst] at he
        simp only [Heap.allocConcept, Option.some.injEq, Prod.mk.injEq] at he
        have hinv2 : HeapInv h2 := by
          unfold HeapInv
          rw [strdup_concepts h1 t h2 ta hst, strdup_concepts h i h1 ia hsi]
          exact hi
        constructor
        · rw [← he.1]
          exact HeapInv.allocConcept h2 _ hinv2 (by simp [Concept.slot_count])
        · refine ⟨{ id := ia, types := ta, slots := [], slot_capacity := 0 }, ?_, rfl, rfl⟩
          rw [← he.1, ← he.2]
          exact Heap.getConcept_allocConcept_self h2 _
  · intro h c n t h' he hi
    rcases c with _ | ca
    · have hh : h = h' := by
        cases n <;> cases t <;> (simp only [add_slot, Option.some.injEq] at he; exact he)
      subst hh
      exact capacity_shape_refl h hi
    · rcases n with _ | na
      · have hh : h = h' := by
          cases t <;> (simp only [add_slot, Option.some.injEq] at he; exact he)
        subst hh
        exact capacity_shape_refl h hi
      · rcases t with _ | ta
        · have hh : h = h' := by
            simp only [add_slot, Option.some.injEq] at he; exact he
          subst hh
          exact capacity_shape_refl h hi
        · cases hcc : h.getConcept ca with
          | none => simp [add_slot, hcc] at he
          | some cc =>
            cases hsv : h.getString na with
            | none => simp [add_slot, hcc, strdup, hsv] at he
            | some v =>
              rw [add_slot_eq h ca na ta cc v hcc hsv] at he
              simp only [Option.some.injEq] at he
              subst he
              have hcnt : cc.slot_count ≤ cc.slot_capacity := HeapInv.le h hi ca cc hcc
              have hcnt2 : cc.slot_count = cc.slots.length := rfl
              have hok : ({ cc with
                  slots := cc.slots ++ [{ name := h.strings.length, target := some ta }],
                  slot_capacity := if cc.slots.length ≥ cc.slot_capacity then grow_capacity cc.slot_capacity
                                   else cc.slot_capacity } : Concept).slot_count ≤
                  ({ cc with
                  slots := cc.slots ++ [{ name := h.strings.length, target := some ta }],
                  slot_capacity := if cc.slots.length ≥ cc.slot_capacity then grow_capacity cc.slot_capacity
                                   else cc.slot_capacity } : Concept).slot_capacity := by
                show (cc.slots ++ [({ name := h.strings.length, target := some ta } : Slot)]).length ≤
                  (if cc.slots.length ≥ cc.slot_capacity then grow_capacity cc.slot_capacity
                   else cc.slot_capacity)
                simp only [List.length_append, List.length_cons, List.length_nil, grow_capacity]
                split_ifs <;> omega
              refine ⟨HeapInv.setConcept _ ca _ (HeapInv.allocString h v hi) hok, ?_⟩
              intro a c0 c1 hc0 hc1
              by_cases haca : a = ca
              · subst haca
                rw [hcc] at hc0
                cases hc0
                rw [Heap.getConcept_setConcept_self _ _ _
                  (by simpa [Heap.allocString] using Heap.getConcept_lt h a cc hcc)] at hc1
                cases hc1
                constructor
                · show cc.slot_capacity ≤
                    (if cc.slots.length ≥ cc.slot_capacity then grow_capacity cc.slot_capacity
                     else cc.slot_capacity)
                  simp only [grow_capacity]
                  split_ifs <;> omega
                · by_cases hge : cc.slots.length ≥ cc.slot_capacity
                  · right
                    constructor
                    · omega
                    · show (if cc.slots.length ≥ cc.slot_capacity then grow_capacity cc.slot_capacity
                            else cc.slot_capacity) = max 2 (cc.slot_capacity * 2)
                      rw [if_pos hge, grow_capacity_eq_max]
                  · left
                    show (if cc.slots.length ≥ cc.slot_capacity then grow_capacity cc.slot_capacity
                          else cc.slot_capacity) = cc.slot_capacity
                    rw [if_neg hge]
              · rw [Heap.getConcept_setConcept_ne _ _ _ _ (fun hx => haca hx.symm),
                    Heap.getConcept_allocString] at hc1
                rw [hc0] at hc1
                cases hc1
                exact ⟨le_refl _, Or.inl rfl⟩
  · intro h c r hr hi
    rw [print_concept_fst_eq h c r hr]
    exact hi
  · intro h c h' he hi
    cases c with
    | none => simp only [free_concept, Option.some.injEq] at he; rw [← he]; exact hi
    | some ca =>
      simp only [free_concept] at he
      cases hcc : h.getConcept ca with
      | none => simp [hcc] at he
      | some cc =>
        simp only [hcc, Option.some.injEq] at he
        rw [← he]
        apply HeapInv.freeConcept
        unfold HeapInv
        rw [free_slot_names_concepts]
        exact hi

/-- Witness for C7: the four operations run on concrete
invariant-respecting heaps and the invariant holds afterwards each time. -/
theorem lifecycle_invariant_witness :
    (create_concept demo_pool 0 1 =
       some ({ strings := [some "john", some "Person", some "book", some "Object", some "owns",
                           some "john", some "Person"],
               concepts := [some { id := 5, types := 6, slots := [], slot_capacity := 0 }] }, 0) ∧
     HeapInv demo_pool ∧
     HeapInv { strings := [some "john", some "Person", some "book", some "Object", some "owns",
                           some "john", some "Person"],
               concepts := [some { id := 5, types := 6, slots := [], slot_capacity := 0 }] }) ∧
    (add_slot sample_heap (some 0) (some 2) (some 1) =
       some { strings := [some "john", some "Person", some "owns", some "book", some "Object", some "owns"],
              concepts := [some { id := 0, types := 1,
                                  slots := [{ name := 2, target := some 1 }, { name := 5, target := some 1 }],
                                  slot_capacity := 2 },
                           some { id := 3, types := 4, slots := [], slot_capacity := 0 }] } ∧
     HeapInv sample_heap ∧
     HeapInv { strings := [some "john", some "Person", some "owns", some "book", some "Object", some "owns"],
               concepts := [some { id := 0, types := 1,
                                   slots := [{ name := 2, target := some 1 }, { name := 5, target := some 1 }],
                                   slot_capacity := 2 },
                            some { id := 3, types := 4, slots := [], slot_capacity := 0 }] }) ∧
    (print_concept sample_heap (some 0) =
       some (sample_heap, "ID: john\nTypes: Person\nSlots (# of slots = 1):\n\t#1\n\t\tName: owns\n\t\tTarget: book\n") ∧
     HeapInv sample_heap) ∧
    (free_concept sample_heap (some 0) =
       some { strings := [none, none, none, some "book", some "Object"],
              concepts := [none, some { id := 3, types := 4, slots := [], slot_capacity := 0 }] } ∧
     HeapInv { strings := [none, none, none, some "book", some "Object"],
               concepts := [none, some { id := 3, types := 4, slots := [], slot_capacity := 0 }] }) :=
  ⟨⟨by decide, by decide,
    (lifecycle_invariant.1 demo_pool 0 1
      { strings := [some "john", some "Person", some "book", some "Object", some "owns",
                    some "john", some "Person"],
        concepts := [some { id := 5, types := 6, slots := [], slot_capacity := 0 }] } 0
      (by decide) (by decide)).1⟩,
   ⟨by decide, by decide,
    (lifecycle_invariant.2.1 sample_heap (some 0) (some 2) (some 1)
      { strings := [some "john", some "Person", some "owns", some "book", some "Object", some "owns"],
        concepts := [some { id := 0, types := 1,
                            slots := [{ name := 2, target := some 1 }, { name := 5, target := some 1 }],
                            slot_capacity := 2 },
                     some { id := 3, types := 4, slots := [], slot_capacity := 0 }] }
      (by decide) (by decide)).1⟩,
   ⟨by decide,
    lifecycle_invariant.2.2.1 sample_heap (some 0)
      (sample_heap, "ID: john\nTypes: Person\nSlots (# of slots = 1):\n\t#1\n\t\tName: owns\n\t\tTarget: book\n")
      (by decide) (by decide)⟩,
   ⟨by decide,
    lifecycle_invariant.2.2.2 sample_heap (some 0)
      { strings := [none, none, none, some "book", some "Object"],
        concepts := [none, some { id := 3, types := 4, slots := [], slot_capacity := 0 }] }
      (by decide) (by decide)⟩⟩

/-- C8: `print_concept` on an absent concept reference is a no-op that
produces no output (empty text, heap unchanged) and no error, and
`free_concept` on an absent reference is likewise a no-op. -/
theorem render_free_null_noop : ∀ h : Heap,
    print_concept h none = some (h, "") ∧ free_concept h none = some h := by
  intro h; exact ⟨rfl, rfl⟩

/-- C9: `print_concept` is a pure observer — whenever it succeeds, the
heap it returns is exactly the heap it was given, so the rendered
concept's id, type, count, capacity and slots, and every target concept
it reads, are unchanged. -/
theorem print_concept_pure : ∀ (h : Heap) (c : Option Nat) (r : Heap × String),
    print_concept h c = some r → r.1 = h := by
  intro h c r hr
  exact print_concept_fst_eq h c r hr

/-- Witness for C9: a concrete successful render of `sample_heap`'s
concept 0, with the returned heap equal to the input heap. -/
theorem print_concept_pure_witness :
    print_concept sample_heap (some 0) =
      some (sample_heap, "ID: john\nTypes: Person\nSlots (# of slots = 1):\n\t#1\n\t\tName: owns\n\t\tTarget: book\n") ∧
    (sample_heap, "ID: john\nTypes: Person\nSlots (# of slots = 1):\n\t#1\n\t\tName: owns\n\t\tTarget: book\n").1 = sample_heap :=
  ⟨by decide, print_concept_pure sample_heap (some 0)
    (sample_heap, "ID: john\nTypes: Person\nSlots (# of slots = 1):\n\t#1\n\t\tName: owns\n\t\tTarget: book\n") (by decide)⟩

/-- C10: a successful `add_slot` modifies only the source concept —
every other concept record (the target's included, when the target is
not the source itself) and every existing string cell is unchanged, and
inside the source the id, the type and all previously committed slots
are preserved, with exactly one new slot appended. -/
theorem add_slot_frame : ∀ (h : Heap) (cAddr nAddr tAddr : Nat) (h' : Heap) (c : Concept),
    add_slot h (some cAddr) (some nAddr) (some tAddr) = some h' →
    h.getConcept cAddr = some c →
    (∀ d, d ≠ cAddr → h'.getConcept d = h.getConcept d) ∧
    (∀ a, a < h.strings.length → h'.getString a = h.getString a) ∧
    (tAddr ≠ cAddr → h'.getConcept tAddr = h.getConcept tAddr) ∧
    ∃ c1, h'.getConcept cAddr = some c1 ∧ c1.id = c.id ∧ c1.types = c.types ∧
      c1.slots = c.slots ++ [{ name := h.strings.length, target := some tAddr }] := by
  intro h cAddr nAddr tAddr h' c he hc
  obtain ⟨v, hn, -⟩ := add_slot_strings h cAddr nAddr tAddr h' he
  rw [add_slot_eq h cAddr nAddr tAddr c v hc hn] at he
  simp only [Option.some.injEq] at he
  subst he
  have hlen : cAddr < h.concepts.length := Heap.getConcept_lt h cAddr c hc
  refine ⟨?_, ?_, ?_, ?_⟩
  · intro d hd
    rw [Heap.getConcept_setConcept_ne _ _ _ _ (fun hx => hd hx.symm), Heap.getConcept_allocString]
  · intro a ha
    rw [Heap.getString_setConcept, Heap.getString_allocString _ _ _ ha]
  · intro ht
    rw [Heap.getConcept_setConcept_ne _ _ _ _ (fun hx => ht hx.symm), Heap.getConcept_allocString]
  · exact ⟨_, Heap.getConcept_setConcept_self _ _ _ (by simpa [Heap.allocString] using hlen), rfl, rfl, rfl⟩

/-- Witness for C10: appending `owns` from `book` (concept 1) to `john`
(concept 0) in `sample_heap` leaves concept 0 and all existing strings
unchanged and appends exactly one slot to concept 1. -/
theorem add_slot_frame_witness :
    (add_slot sample_heap (some 1) (some 2) (some 0) =
       some { strings := [some "john", some "Person", some "owns", some "book", some "Object", some "owns"],
              concepts := [some { id := 0, types := 1, slots := [{ name := 2, target := some 1 }], slot_capacity := 2 },
                           some { id := 3, types := 4, slots := [{ name := 5, target := some 0 }], slot_capacity := 2 }] } ∧
     sample_heap.getConcept 1 = some { id := 3, types := 4, slots := [], slot_capacity := 0 }) ∧
    ((∀ d, d ≠ 1 →
        ({ strings := [some "john", some "Person", some "owns", some "book", some "Object", some "owns"],
           concepts := [some { id := 0, types := 1, slots := [{ name := 2, target := some 1 }], slot_capacity := 2 },
                        some { id := 3, types := 4, slots := [{ name := 5, target := some 0 }], slot_capacity := 2 }] } : Heap).getConcept d =
        sample_heap.getConcept d) ∧
     (∀ a, a < sample_heap.strings.length →
        ({ strings := [some "john", some "Person", some "owns", some "book", some "Object", some "owns"],
           concepts := [some { id := 0, types := 1, slots := [{ name := 2, target := some 1 }], slot_capacity := 2 },
                        some { id := 3, types := 4, slots := [{ name := 5, target := some 0 }], slot_capacity := 2 }] } : Heap).getString a =
        sample_heap.getString a) ∧
     ((0 : Nat) ≠ 1 →
        ({ strings := [some "john", some "Person", some "owns", some "book", some "Object", some "owns"],
           concepts := [some { id := 0, types := 1, slots := [{ name := 2, target := some 1 }], slot_capacity := 2 },
                        some { id := 3, types := 4, slots := [{ name := 5, target := some 0 }], slot_capacity := 2 }] } : Heap).getConcept 0 =
        sample_heap.getConcept 0) ∧
     ∃ c1, ({ strings := [some "john", some "Person", some "owns", some "book", some "Object", some "owns"],
              concepts := [some { id := 0, types := 1, slots := [{ name := 2, target := some 1 }], slot_capacity := 2 },
                           some { id := 3, types := 4, slots := [{ name := 5, target := some 0 }], slot_capacity := 2 }] } : Heap).getConcept 1 = some c1 ∧
       c1.id = ({ id := 3, types := 4, slots := [], slot_capacity := 0 } : Concept).id ∧
       c1.types = ({ id := 3, types := 4, slots := [], slot_capacity := 0 } : Concept).types ∧
       c1.slots = ({ id := 3, types := 4, slots := [], slot_capacity := 0 } : Concept).slots ++
         [{ name := sample_heap.strings.length, target := some 0 }]) :=
  ⟨⟨by decide, by decide⟩,
   add_slot_frame sample_heap 1 2 0
     { strings := [some "john", some "Person", some "owns", some "book", some "Object", some "owns"],
       concepts := [some { id := 0, types := 1, slots := [{ name := 2, target := some 1 }], slot_capacity := 2 },
                    some { id := 3, types := 4, slots := [{ name := 5, target := some 0 }], slot_capacity := 2 }] }
     { id := 3, types := 4, slots := [], slot_capacity := 0 }
     (by decide) (by decide)⟩

end Clarity
